import Mathlib

/-!
Shallow embedding of the elevator dispatch controller in
`elevator_saga/client_examples/our_example.py` (class `TestElevatorBusController`),
together with proofs about its scheduling behaviour.

Modelling conventions:
* Floors are natural numbers (the controller indexes `self.floors` by a
  passenger's origin, so floors are the non-negative integers `0 .. max_floor`).
* The Python floats appearing in scores (`0.3`, `0.7`, `0.4`, `2.0`, `1.5`,
  `0.5`) are modelled as exact rationals; `float('inf')` is modelled as
  `none : Option ℚ` (`some` = finite score).
* `list.sort(key=...)` is a stable sort by a lexicographic key; it is modelled
  with `List.insertionSort`, which is stable, and for a total preorder any two
  stable sorts agree.
* Engine-owned proxy objects (`ProxyElevator`, `ProxyPassenger`, `ProxyFloor`)
  are modelled by records of exactly the fields the controller reads;
  `elevator.target_floor` is nullable, hence `Option ℕ`.  A Python comparison
  `None == int` is `False`, which the model reflects via `Option` equality.
  Stale passenger references (the `try/except` guards in the source) are
  modelled by a validity predicate applied at tick start; the remaining
  handlers operate on valid references.
* `int((i * max_floor) / (num - 1))` (float division, then truncation towards
  zero) is modelled as natural-number floor division: for the non-negative
  machine-size operands used here the two agree.
-/

namespace ElevatorSaga

/-- Enumeration `Direction` from `elevator_saga.core.models`: the three values the
controller compares against (`Direction.UP`, `Direction.DOWN`,
`Direction.STOPPED`).  The string-valued `direction` callback argument only
ever holds `Direction.UP.value` or `Direction.DOWN.value`, so it is modelled
by the same type. -/
inductive Direction where
  | up
  | down
  | stopped
deriving DecidableEq, Repr

/-- The fields of `ProxyPassenger` the controller reads. -/
structure Passenger where
  id : ℕ
  origin : ℕ
  destination : ℕ
deriving DecidableEq, Repr

/-- The fields of `ProxyElevator` the controller reads.  `occupants` is
`len(elevator.passengers)`; `target_floor` is nullable. -/
structure Elevator where
  id : ℕ
  current_floor : ℕ
  occupants : ℕ
  max_capacity : ℕ
  last_tick_direction : Direction
  target_floor : Option ℕ
deriving DecidableEq, Repr

/-- Outbound command `elevator.go_to_floor(floor, immediate=...)`. -/
inductive Cmd where
  | goTo (eid : ℕ) (floor : ℕ) (immediate : Bool)
deriving DecidableEq, Repr

/-- The controller's own mutable state (`self.*` in `TestElevatorBusController`).
`self.elevators` stores proxies whose attributes are engine-owned and change
every tick, so handlers receive the current observations as parameters;
the state keeps only the static fleet size, which is all the controller
reads from `self.elevators` besides iterating over current observations. -/
structure ControllerState where
  pending_calls : List Passenger
  elevator_targets : ℕ → List ℕ
  passenger_waiting_time : ℕ → ℕ
  max_floor : ℕ
  num_elevators : ℕ

/-! ### The SCAN sort of `_add_stop_smart`

Python sorts `targets` by these keys:
* direction UP: `(f < current_floor, f if f >= current_floor else -f)`,
* direction DOWN: `(f > current_floor, -f if f <= current_floor else f)`,
* STOPPED: `abs(f - current_floor)`.
Booleans are encoded as `0`/`1` in the first component; a single-valued key is
paired with `0`. -/

/-- Sort key for a queued floor `a`, given current floor `cf` and direction. -/
def sortKey : Direction → ℕ → ℕ → ℤ × ℤ
  | .up, cf, a => (if a < cf then 1 else 0, if cf ≤ a then (a : ℤ) else -(a : ℤ))
  | .down, cf, a => (if cf < a then 1 else 0, if a ≤ cf then -(a : ℤ) else (a : ℤ))
  | .stopped, cf, a => ((((a : ℤ) - (cf : ℤ)).natAbs : ℤ), 0)

/-- Lexicographic order on key pairs, as used by Python tuple comparison. -/
def keyLe (p q : ℤ × ℤ) : Prop :=
  p.1 < q.1 ∨ (p.1 = q.1 ∧ p.2 ≤ q.2)

instance (p q : ℤ × ℤ) : Decidable (keyLe p q) := by
  unfold keyLe; exact inferInstance

/-- The comparison `sort(key=...)` sorts by. -/
def sortLe (dir : Direction) (cf : ℕ) (a b : ℕ) : Prop :=
  keyLe (sortKey dir cf a) (sortKey dir cf b)

instance (dir : Direction) (cf : ℕ) : DecidableRel (sortLe dir cf) := fun a b => by
  unfold sortLe; exact inferInstance

instance (dir : Direction) (cf : ℕ) : IsTotal ℕ (sortLe dir cf) :=
  ⟨fun a b => by unfold sortLe keyLe; omega⟩

instance (dir : Direction) (cf : ℕ) : IsTrans ℕ (sortLe dir cf) :=
  ⟨fun a b c h1 h2 => by unfold sortLe keyLe at h1 h2 ⊢; omega⟩

/-- Model of `targets.sort(key=...)`: a stable sort by the direction-aware key. -/
def sortTargets (dir : Direction) (cf : ℕ) (ts : List ℕ) : List ℕ :=
  List.insertionSort (sortLe dir cf) ts

/-- Model of `_add_stop_smart(elevator, floor)`: early-return if the floor is already
queued, otherwise append and resort by the direction-aware SCAN key. -/
def addStopSmart (dir : Direction) (cf : ℕ) (ts : List ℕ) (floor : ℕ) : List ℕ :=
  if floor ∈ ts then ts
  else sortTargets dir cf (ts ++ [floor])

/-! ### Score folds

Both `on_passenger_call` and `_try_assign_pending_to_elevator` run the Python
pattern
```
best, best_score = None, float('inf')
for x in xs:
    s = f(x)
    if s < best_score:
        best, best_score = x, s
```
Scores are `Option ℚ` with `none` playing the role of `float('inf')`. -/

/-- Comparison `s < best_score` on `Option ℚ`-encoded extended rationals
(`none` = `+∞`; note `inf < inf` is false). -/
def oLt : Option ℚ → Option ℚ → Bool
  | some a, some b => decide (a < b)
  | some _, none => true
  | none, _ => false

/-- One step of the minimum-searching loop. -/
def selStep {α : Type} (f : α → Option ℚ) (acc : Option α × Option ℚ) (x : α) :
    Option α × Option ℚ :=
  if oLt (f x) acc.2 then (some x, f x) else acc

/-- The whole loop: first element attaining the strict minimum of `f`,
together with that minimum (`(none, none)` when every score is infinite). -/
def selMin {α : Type} (f : α → Option ℚ) (l : List α) : Option α × Option ℚ :=
  l.foldl (selStep f) (none, none)

/-- Model of `_calculate_assignment_score(elevator, passenger, floor, direction)`.
The `passenger` parameter is unused in the source, so it is omitted here.
`fl` is `floor.floor`, `dir` the requested direction string. -/
def calcScore (e : Elevator) (fl : ℕ) (dir : Direction) : Option ℚ :=
  if e.max_capacity ≤ e.occupants then none
  else
    let distance : ℚ := ((((fl : ℤ) - (e.current_floor : ℤ)).natAbs : ℕ) : ℚ)
    let load_factor : ℚ := (e.occupants : ℚ) / (e.max_capacity : ℚ)
    let base_score : ℚ := distance * (1 + load_factor * (3 / 10))
    if e.last_tick_direction = .stopped then some (base_score * (7 / 10))
    else if (e.last_tick_direction = .up ∧ dir = .up) ∨
        (e.last_tick_direction = .down ∧ dir = .down) then
      if (e.last_tick_direction = .up ∧ e.current_floor ≤ fl) ∨
          (e.last_tick_direction = .down ∧ fl ≤ e.current_floor) then
        some (base_score * (4 / 10))
      else some (base_score * 2)
    else if ((fl : ℤ) - (e.current_floor : ℤ)).natAbs ≤ 2 ∧ e.occupants = 0 then
      some (base_score * (3 / 2))
    else none

/-- The backlog priority score of `_try_assign_pending_to_elevator`:
`abs(elevator.current_floor - passenger.origin) - waiting_time * 0.5`. -/
def pendingScore (w : ℕ → ℕ) (e : Elevator) (p : Passenger) : ℚ :=
  ((((e.current_floor : ℤ) - (p.origin : ℤ)).natAbs : ℕ) : ℚ) - (w p.id : ℚ) * (1 / 2)

/-! ### State helpers and handlers -/

/-- Point update of the per-elevator target map. -/
def setTargets (s : ControllerState) (eid : ℕ) (ts : List ℕ) : ControllerState :=
  { s with elevator_targets := fun i => if i = eid then ts else s.elevator_targets i }

/-- Model of `_send_next_target(elevator)`: issue the queue head, if any. -/
def sendNextCmds (s : ControllerState) (e : Elevator) : List Cmd :=
  match s.elevator_targets e.id with
  | [] => []
  | f :: _ => [Cmd.goTo e.id f false]

/-- Model of `_assign_passenger_to_elevator(elevator, passenger, floor)`:
queue the pickup floor `fl` and the destination, then, if the (freshly read)
target list is empty or the elevator's current target equals its current
floor, send the next target.  (`None == int` is `False` in Python, hence the
`Option` equality.) -/
def assignPassenger (s : ControllerState) (e : Elevator) (p : Passenger) (fl : ℕ) :
    ControllerState × List Cmd :=
  let t1 := addStopSmart e.last_tick_direction e.current_floor (s.elevator_targets e.id) fl
  let t2 := addStopSmart e.last_tick_direction e.current_floor t1 p.destination
  let s' := setTargets s e.id t2
  if s'.elevator_targets e.id = [] ∨ e.target_floor = some e.current_floor then
    (s', sendNextCmds s' e)
  else (s', [])

/-- Model of `on_passenger_call(passenger, floor, direction)`: score every elevator,
assign to the strict-minimum scorer if any score is finite, otherwise push the
passenger onto `pending_calls` (if not already there) with waiting time 0.
`obs` is the current observation of `self.elevators`. -/
def onPassengerCall (s : ControllerState) (obs : List Elevator) (p : Passenger)
    (fl : ℕ) (dir : Direction) : ControllerState × List Cmd :=
  match selMin (fun e => calcScore e fl dir) obs with
  | (some e, some _) => assignPassenger s e p fl
  | _ =>
    if p ∈ s.pending_calls then (s, [])
    else
      ({ s with
          pending_calls := s.pending_calls ++ [p]
          passenger_waiting_time := fun i =>
            if i = p.id then 0 else s.passenger_waiting_time i }, [])

/-- Model of `_try_assign_pending_to_elevator(elevator)`: pick the pending passenger
minimizing `pendingScore`, remove it from the backlog, then assign it with its
origin floor as pickup.  Returns the Python boolean result as well.
(The `except` path for stale references is not modelled: all references in
the modelled state are valid.) -/
def tryAssignPending (s : ControllerState) (e : Elevator) :
    Bool × ControllerState × List Cmd :=
  if s.pending_calls = [] then (false, s, [])
  else
    match (selMin (fun p => some (pendingScore s.passenger_waiting_time e p))
        s.pending_calls).1 with
    | none => (false, s, [])
    | some p =>
      let s1 := { s with pending_calls := s.pending_calls.erase p }
      let r := assignPassenger s1 e p p.origin
      (true, r.1, r.2)

/-- Model of `_get_strategic_position(elevator)`.  Non-negative integer arithmetic:
Python `//` and `int(float_div)` both floor here. -/
def strategicPosition (s : ControllerState) (e : Elevator) : ℕ :=
  if s.num_elevators = 1 then s.max_floor / 2
  else (e.id * s.max_floor) / (s.num_elevators - 1)

/-- Model of `on_elevator_idle(elevator)`: first try the backlog; only if that fails,
move to the strategic position when it differs from the current floor. -/
def onElevatorIdle (s : ControllerState) (e : Elevator) : ControllerState × List Cmd :=
  match tryAssignPending s e with
  | (true, s', cs) => (s', cs)
  | (false, s', _) =>
    let sf := strategicPosition s' e
    if sf ≠ e.current_floor then (s', [Cmd.goTo e.id sf false]) else (s', [])

/-- Model of `on_elevator_stopped(elevator, floor)`: drop the stopped floor from the
target list (first occurrence, if present) and send the next target. -/
def onElevatorStopped (s : ControllerState) (e : Elevator) (fl : ℕ) :
    ControllerState × List Cmd :=
  let ts := s.elevator_targets e.id
  let ts' := if fl ∈ ts then ts.erase fl else ts
  let s' := setTargets s e.id ts'
  (s', sendNextCmds s' e)

/-- Model of `on_passenger_board(elevator, passenger)`: forget the waiting time, ensure
the destination is queued, and send a target if the elevator is targetless or
has reached its target.  (Deleting a waiting-time entry is modelled by
resetting it to the dictionary's read default `0`.) -/
def onPassengerBoard (s : ControllerState) (e : Elevator) (p : Passenger) :
    ControllerState × List Cmd :=
  let s1 := { s with passenger_waiting_time := fun i =>
    if i = p.id then 0 else s.passenger_waiting_time i }
  let ts' := addStopSmart e.last_tick_direction e.current_floor
    (s1.elevator_targets e.id) p.destination
  let s2 := setTargets s1 e.id ts'
  if e.target_floor = none ∨ e.target_floor = some e.current_floor then
    (s2, sendNextCmds s2 e)
  else (s2, [])

/-- The same-direction test of `on_elevator_approaching`: origin at the
approached floor and destination on the far side in the travel direction. -/
def interceptMatch (fl : ℕ) (dir : Direction) (p : Passenger) : Bool :=
  p.origin = fl &&
    ((dir = .up && p.origin < p.destination) || (dir = .down && p.destination < p.origin))

/-- Model of `on_elevator_approaching(elevator, floor, direction)`: no action when the
backlog is empty or the elevator is full; otherwise intercept the first
same-direction pending passenger at this floor (at most one per invocation),
queue the floor and the destination, and redirect the elevator here unless it
is already its target. -/
def onElevatorApproaching (s : ControllerState) (e : Elevator) (fl : ℕ)
    (dir : Direction) : ControllerState × List Cmd :=
  if s.pending_calls = [] then (s, [])
  else if e.max_capacity ≤ e.occupants then (s, [])
  else
    match s.pending_calls.find? (interceptMatch fl dir) with
    | none => (s, [])
    | some p =>
      let s1 := { s with pending_calls := s.pending_calls.erase p }
      let t1 :=
        if fl ∈ s1.elevator_targets e.id then s1.elevator_targets e.id
        else addStopSmart e.last_tick_direction e.current_floor
          (s1.elevator_targets e.id) fl
      let t2 := addStopSmart e.last_tick_direction e.current_floor t1 p.destination
      let s2 := setTargets s1 e.id t2
      if e.target_floor ≠ some fl then (s2, [Cmd.goTo e.id fl false])
      else (s2, [])

/-- Model of `on_event_execute_start`: drop pending entries whose passenger reference
no longer resolves (`valid` is the engine-side resolvability of a reference)
and bump each surviving entry's waiting time. -/
def onTickStart (s : ControllerState) (valid : Passenger → Bool) : ControllerState :=
  let kept := s.pending_calls.filter valid
  { s with
      pending_calls := kept
      passenger_waiting_time :=
        kept.foldl (fun w p => fun i => if i = p.id then w i + 1 else w i)
          s.passenger_waiting_time }

/-- Model of `_process_pending_calls` (run by `on_event_execute_end`): for each
elevator with a short target list (≤ 2), try a backlog match; on success send
the next target if the elevator is targetless or at its target.  The loop's
`break` on an empty backlog is a no-op continuation. -/
def processPendingCalls (s : ControllerState) (obs : List Elevator) :
    ControllerState × List Cmd :=
  obs.foldl
    (fun acc e =>
      if acc.1.pending_calls = [] then acc
      else if (acc.1.elevator_targets e.id).length ≤ 2 then
        let r := tryAssignPending acc.1 e
        if r.1 = true then
          if e.target_floor = none ∨ e.target_floor = some e.current_floor then
            (r.2.1, acc.2 ++ r.2.2 ++ sendNextCmds r.2.1 e)
          else (r.2.1, acc.2 ++ r.2.2)
        else (r.2.1, acc.2 ++ r.2.2)
      else acc)
    (s, [])

/-- Model of `on_init(elevators, floors)`: empty queues and counters.  (The initial
dispersal commands do not affect the controller state.) -/
def initState (maxFloor numElevators : ℕ) : ControllerState :=
  { pending_calls := []
    elevator_targets := fun _ => []
    passenger_waiting_time := fun _ => 0
    max_floor := maxFloor
    num_elevators := numElevators }

/-! ### Ordering predicates stated by the specification -/

/-- The specification's ordering requirement for a vehicle moving UP:
floors at or above the current floor come first, in ascending order, followed
by the floors below it, in descending order. -/
def UpScanOrder (cf : ℕ) (l : List ℕ) : Prop :=
  l.Pairwise fun (a b : ℕ) =>
    (a < cf → b < cf) ∧ (cf ≤ a → cf ≤ b → a ≤ b) ∧ (a < cf → b < cf → b ≤ a)

/-- The specification's ordering requirement for a vehicle moving DOWN:
floors at or below the current floor come first, in descending order,
followed by the floors above it, in ascending order. -/
def DownScanOrder (cf : ℕ) (l : List ℕ) : Prop :=
  l.Pairwise fun (a b : ℕ) =>
    (cf < a → cf < b) ∧ (a ≤ cf → b ≤ cf → b ≤ a) ∧ (cf < a → cf < b → a ≤ b)

/-- The specification's ordering requirement for a STOPPED vehicle: floors
ordered by absolute distance from the current floor, nearest first. -/
def NearestScanOrder (cf : ℕ) (l : List ℕ) : Prop :=
  l.Pairwise fun (a b : ℕ) => ((a : ℤ) - (cf : ℤ)).natAbs ≤ ((b : ℤ) - (cf : ℤ)).natAbs

instance (cf : ℕ) (l : List ℕ) : Decidable (UpScanOrder cf l) := by
  unfold UpScanOrder
  have : DecidableRel fun (a b : ℕ) =>
      (a < cf → b < cf) ∧ (cf ≤ a → cf ≤ b → a ≤ b) ∧ (a < cf → b < cf → b ≤ a) :=
    fun a b => by exact inferInstance
  exact List.instDecidablePairwise l

instance (cf : ℕ) (l : List ℕ) : Decidable (DownScanOrder cf l) := by
  unfold DownScanOrder
  have : DecidableRel fun (a b : ℕ) =>
      (cf < a → cf < b) ∧ (a ≤ cf → b ≤ cf → b ≤ a) ∧ (cf < a → cf < b → a ≤ b) :=
    fun a b => by exact inferInstance
  exact List.instDecidablePairwise l

instance (cf : ℕ) (l : List ℕ) : Decidable (NearestScanOrder cf l) := by
  unfold NearestScanOrder
  have : DecidableRel fun (a b : ℕ) =>
      ((a : ℤ) - (cf : ℤ)).natAbs ≤ ((b : ℤ) - (cf : ℤ)).natAbs :=
    fun a b => by exact inferInstance
  exact List.instDecidablePairwise l

/-! ### Reachable controller states and the duplicate-freeness invariant -/

/-- The invariant maintained by every handler: the backlog holds pairwise
distinct passenger entries, and every stop queue holds pairwise distinct
floors. -/
def StateInv (s : ControllerState) : Prop :=
  s.pending_calls.Nodup ∧ ∀ i, (s.elevator_targets i).Nodup

/-- States the controller can be in: the initial state, and anything produced
from a reachable state by one of the event handlers, for arbitrary engine
observations. -/
inductive Reachable : ControllerState → Prop where
  | init (maxFloor numElevators : ℕ) : Reachable (initState maxFloor numElevators)
  | tick_start {s : ControllerState} (valid : Passenger → Bool) :
      Reachable s → Reachable (onTickStart s valid)
  | tick_end {s : ControllerState} (obs : List Elevator) :
      Reachable s → Reachable (processPendingCalls s obs).1
  | passenger_call {s : ControllerState} (obs : List Elevator) (p : Passenger)
      (fl : ℕ) (dir : Direction) :
      Reachable s → Reachable (onPassengerCall s obs p fl dir).1
  | elevator_idle {s : ControllerState} (e : Elevator) :
      Reachable s → Reachable (onElevatorIdle s e).1
  | elevator_stopped {s : ControllerState} (e : Elevator) (fl : ℕ) :
      Reachable s → Reachable (onElevatorStopped s e fl).1
  | passenger_board {s : ControllerState} (e : Elevator) (p : Passenger) :
      Reachable s → Reachable (onPassengerBoard s e p).1
  | elevator_approaching {s : ControllerState} (e : Elevator) (fl : ℕ)
      (dir : Direction) :
      Reachable s → Reachable (onElevatorApproaching s e fl dir).1

/-! ### The scoring rule as the specification words it -/

/-- The Assignment Scorer's score computation exactly as the specification
states it: infinite when full; otherwise `base = distance × (1 + load_factor × 0.3)`,
multiplied by `0.7` for a STOPPED vehicle, `0.4` for a same-direction vehicle
with the origin ahead, `2.0` for a same-direction vehicle with the origin
behind, and, for an opposite-direction vehicle, `1.5` when `distance ≤ 2` and
the vehicle is empty, infinite otherwise. -/
def specScore (e : Elevator) (fl : ℕ) (dir : Direction) : Option ℚ :=
  if e.occupants ≥ e.max_capacity then none
  else
    let distance : ℚ := ((((fl : ℤ) - (e.current_floor : ℤ)).natAbs : ℕ) : ℚ)
    let base : ℚ := distance * (1 + ((e.occupants : ℚ) / (e.max_capacity : ℚ)) * (3 / 10))
    match e.last_tick_direction, dir with
    | .stopped, _ => some (base * (7 / 10))
    | .up, .up =>
      if fl ≥ e.current_floor then some (base * (4 / 10)) else some (base * 2)
    | .down, .down =>
      if fl ≤ e.current_floor then some (base * (4 / 10)) else some (base * 2)
    | _, _ =>
      if distance ≤ 2 ∧ e.occupants = 0 then some (base * (3 / 2)) else none

/-- The specification's selection rule (claim C2): the call goes to the
first vehicle in iteration order attaining the strict minimum finite score. -/
def FirstMinScorer (obs : List Elevator) (fl : ℕ) (dir : Direction) (e : Elevator) : Prop :=
  calcScore e fl dir ≠ none
  ∧ (∀ x ∈ obs, oLt (calcScore x fl dir) (calcScore e fl dir) = false)
  ∧ ∃ l1 l2, obs = l1 ++ e :: l2 ∧ ∀ x ∈ l1, oLt (calcScore e fl dir) (calcScore x fl dir) = true

/-! ### Concrete fixtures used by the scenario theorems -/

/-- Scenario A fixture: a single idle vehicle at floor 0 of a 3-floor
building, spare capacity, no target. -/
def scenAElevator : Elevator :=
  { id := 0, current_floor := 0, occupants := 0, max_capacity := 10
    last_tick_direction := .stopped, target_floor := none }

/-- Scenario A fixture with an arbitrary reported target floor. -/
def scenAElevatorT (tf : Option ℕ) : Elevator :=
  { scenAElevator with target_floor := tf }

/-- Scenario A's passenger: calls at floor 0, destination floor 2. -/
def scenAPassenger : Passenger := { id := 1, origin := 0, destination := 2 }

/-- Scenario D fixture: waiting 10 ticks at distance 3 from the idle vehicle. -/
def scenDP1 : Passenger := { id := 1, origin := 3, destination := 5 }

/-- Scenario D fixture: waiting 0 ticks at distance 1 from the idle vehicle. -/
def scenDP2 : Passenger := { id := 2, origin := 1, destination := 2 }

/-- Scenario D backlog: both passengers pending, the first aged 10 ticks. -/
def scenDState : ControllerState :=
  { pending_calls := [scenDP1, scenDP2]
    elevator_targets := fun _ => []
    passenger_waiting_time := fun i => if i = 1 then 10 else 0
    max_floor := 5
    num_elevators := 1 }

/-- A vehicle at capacity (4 of 4 occupants). -/
def fullElevator : Elevator :=
  { id := 0, current_floor := 0, occupants := 4, max_capacity := 4
    last_tick_direction := .stopped, target_floor := none }

/-- A waiting passenger at floor 2 heading to floor 3. -/
def backlogPassenger : Passenger := { id := 7, origin := 2, destination := 3 }

/-- A controller state whose backlog holds exactly `backlogPassenger`. -/
def backlogState : ControllerState :=
  { pending_calls := [backlogPassenger]
    elevator_targets := fun _ => []
    passenger_waiting_time := fun _ => 0
    max_floor := 5
    num_elevators := 1 }

/-- An idle empty vehicle at floor 0. -/
def idleElevator : Elevator :=
  { id := 0, current_floor := 0, occupants := 0, max_capacity := 10
    last_tick_direction := .stopped, target_floor := none }

/-- Fixture for the idle-repositioning counterexample: three vehicles,
top floor 7, empty backlog. -/
def repoState : ControllerState :=
  { pending_calls := []
    elevator_targets := fun _ => []
    passenger_waiting_time := fun _ => 0
    max_floor := 7
    num_elevators := 3 }

/-- Vehicle 1 of 3, idle at floor 4.  `round(1 × 7 / 2) = 4` would mean no
move, while the code computes `int(1 * 7 / 2) = 3` and moves. -/
def repoElevator : Elevator :=
  { id := 1, current_floor := 4, occupants := 0, max_capacity := 8
    last_tick_direction := .stopped, target_floor := none }

/-! ### Order facts about `oLt` and the characterization of `selMin` -/

example : addStopSmart .stopped 0 [] 2 = [2] := by decide
example : addStopSmart .stopped 0 [2] 0 = [0, 2] := by decide
example : addStopSmart .up 3 [1, 5] 4 = [4, 5, 1] := by decide
example : addStopSmart .down 3 [1, 5] 2 = [2, 1, 5] := by decide

theorem oLt_irrefl (a : Option ℚ) : oLt a a = false := by
  cases a with
  | none => rfl
  | some q => simp [oLt]

theorem oLt_none_left (a : Option ℚ) : oLt none a = false := rfl

theorem oLt_some_ne_none {a b : Option ℚ} (h : oLt a b = true) : a ≠ none := by
  cases a <;> simp_all [oLt]

theorem oLt_trans {a b c : Option ℚ} (h1 : oLt a b = true) (h2 : oLt b c = true) :
    oLt a c = true := by
  cases a <;> cases b <;> cases c <;> simp_all [oLt]
  exact lt_trans h1 h2

theorem oLt_lt_of_not_lt {a b c : Option ℚ} (h1 : oLt a b = true) (h2 : oLt c b = false) :
    oLt a c = true := by
  cases a <;> cases b <;> cases c <;> simp_all [oLt]
  exact lt_of_lt_of_le h1 h2

/-- Full behaviour of the minimum-searching loop: either every score was
infinite and nothing was selected, or the first element attaining the strict
minimum was selected together with its (finite) score. -/
theorem selMin_spec {α : Type} (f : α → Option ℚ) (l : List α) :
    ((selMin f l).1 = none ∧ (selMin f l).2 = none ∧ ∀ x ∈ l, f x = none)
    ∨ (∃ b l1 l2, (selMin f l).1 = some b ∧ (selMin f l).2 = f b ∧
        l = l1 ++ b :: l2 ∧ (∀ x ∈ l1, oLt (f b) (f x) = true) ∧
        (∀ x ∈ l, oLt (f x) (f b) = false) ∧ f b ≠ none) := by
  induction l using List.reverseRecOn with
  | nil => exact Or.inl ⟨rfl, rfl, by simp⟩
  | append_singleton l y ih =>
    have hfold : selMin f (l ++ [y]) = selStep f (selMin f l) y := by
      simp [selMin, List.foldl_append]
    rcases ih with ⟨h1, h2, h3⟩ | ⟨b, l1, l2, h1, h2, h3, h4, h5, h6⟩
    · have hacc : selMin f l = (none, none) := by
        rcases hsel : selMin f l with ⟨u, v⟩
        simp_all
      by_cases hy : f y = none
      · left
        have : selStep f (none, none) y = (none, none) := by
          simp [selStep, hy, oLt_none_left, oLt]
        rw [hfold, hacc, this]
        constructor
        · rfl
        constructor
        · rfl
        · intro x hx
          rcases List.mem_append.mp hx with hx | hx
          · exact h3 x hx
          · simp at hx; subst hx; exact hy
      · right
        rcases Option.ne_none_iff_exists.mp hy with ⟨q, hq⟩
        have hstep : selStep f (none, none) y = (some y, f y) := by
          simp [selStep, ← hq, oLt]
        refine ⟨y, l, [], ?_, ?_, rfl, ?_, ?_, hy⟩
        · rw [hfold, hacc, hstep]
        · rw [hfold, hacc, hstep]
        · intro x hx
          rw [h3 x hx, ← hq]
          rfl
        · intro x hx
          rcases List.mem_append.mp hx with hx | hx
          · rw [h3 x hx]; exact oLt_none_left _
          · simp at hx; subst hx; exact oLt_irrefl _
    · have hacc : selMin f l = (some b, f b) := by
        rcases hsel : selMin f l with ⟨u, v⟩
        simp_all
      by_cases hy : oLt (f y) (f b) = true
      · right
        have hstep : selStep f (some b, f b) y = (some y, f y) := by
          simp [selStep, hy]
        refine ⟨y, l, [], ?_, ?_, rfl, ?_, ?_, oLt_some_ne_none hy⟩
        · rw [hfold, hacc, hstep]
        · rw [hfold, hacc, hstep]
        · intro x hx
          exact oLt_lt_of_not_lt hy (h5 x hx)
        · intro x hx
          rcases List.mem_append.mp hx with hx | hx
          · by_contra hcon
            rw [Bool.not_eq_false] at hcon
            exact absurd (oLt_trans hcon hy) (by rw [h5 x hx]; simp)
          · simp at hx; subst hx; exact oLt_irrefl _
      · right
        rw [Bool.not_eq_true] at hy
        have hstep : selStep f (some b, f b) y = (some b, f b) := by
          simp [selStep, hy]
        refine ⟨b, l1, l2 ++ [y], ?_, ?_, ?_, h4, ?_, h6⟩
        · rw [hfold, hacc, hstep]
        · rw [hfold, hacc, hstep]
        · rw [h3]; simp
        · intro x hx
          rcases List.mem_append.mp hx with hx | hx
          · exact h5 x hx
          · simp at hx; subst hx; exact hy

theorem selMin_fst_none_iff {α : Type} (f : α → Option ℚ) (l : List α) :
    (selMin f l).1 = none ↔ ∀ x ∈ l, f x = none := by
  rcases selMin_spec f l with ⟨h1, _, h3⟩ | ⟨b, l1, l2, h1, _, h3, _, _, h6⟩
  · exact ⟨fun _ => h3, fun _ => h1⟩
  · constructor
    · intro h; rw [h] at h1; cases h1
    · intro h
      exact absurd (h b (h3 ▸ List.mem_append.mpr (Or.inr (List.mem_cons_self b l2)))) h6

theorem selMin_some_spec {α : Type} {f : α → Option ℚ} {l : List α} {b : α}
    (h : (selMin f l).1 = some b) :
    (selMin f l).2 = f b ∧ f b ≠ none ∧
      (∀ x ∈ l, oLt (f x) (f b) = false) ∧
      ∃ l1 l2, l = l1 ++ b :: l2 ∧ ∀ x ∈ l1, oLt (f b) (f x) = true := by
  rcases selMin_spec f l with ⟨h1, _, _⟩ | ⟨b', l1, l2, h1, h2, h3, h4, h5, h6⟩
  · rw [h] at h1; cases h1
  · rw [h] at h1
    injection h1 with h1
    subst h1
    exact ⟨h2, h6, h5, l1, l2, h3, h4⟩

theorem selMin_mem {α : Type} {f : α → Option ℚ} {l : List α} {b : α}
    (h : (selMin f l).1 = some b) : b ∈ l := by
  rcases (selMin_some_spec h).2.2.2 with ⟨l1, l2, hsplit, _⟩
  rw [hsplit]
  exact List.mem_append.mpr (Or.inr (List.mem_cons_self b l2))

theorem sortTargets_sorted (dir : Direction) (cf : ℕ) (ts : List ℕ) :
    List.Sorted (sortLe dir cf) (sortTargets dir cf ts) :=
  List.sorted_insertionSort (sortLe dir cf) ts

theorem sortTargets_perm (dir : Direction) (cf : ℕ) (ts : List ℕ) :
    List.Perm (sortTargets dir cf ts) ts :=
  List.perm_insertionSort (sortLe dir cf) ts

theorem sortLe_up_imp {cf a b : ℕ} (h : sortLe .up cf a b) :
    (a < cf → b < cf) ∧ (cf ≤ a → cf ≤ b → a ≤ b) ∧ (a < cf → b < cf → b ≤ a) := by
  simp only [sortLe, keyLe, sortKey] at h
  split_ifs at h <;> omega

theorem sortLe_down_imp {cf a b : ℕ} (h : sortLe .down cf a b) :
    (cf < a → cf < b) ∧ (a ≤ cf → b ≤ cf → b ≤ a) ∧ (cf < a → cf < b → a ≤ b) := by
  simp only [sortLe, keyLe, sortKey] at h
  split_ifs at h <;> omega

theorem sortLe_stopped_imp {cf a b : ℕ} (h : sortLe .stopped cf a b) :
    ((a : ℤ) - (cf : ℤ)).natAbs ≤ ((b : ℤ) - (cf : ℤ)).natAbs := by
  simp only [sortLe, keyLe, sortKey] at h
  omega

theorem sortTargets_upScan (cf : ℕ) (ts : List ℕ) :
    UpScanOrder cf (sortTargets .up cf ts) := by
  unfold UpScanOrder
  refine List.Pairwise.imp ?_ (sortTargets_sorted .up cf ts)
  intro a b h
  exact sortLe_up_imp h

theorem sortTargets_downScan (cf : ℕ) (ts : List ℕ) :
    DownScanOrder cf (sortTargets .down cf ts) := by
  unfold DownScanOrder
  refine List.Pairwise.imp ?_ (sortTargets_sorted .down cf ts)
  intro a b h
  exact sortLe_down_imp h

theorem sortTargets_nearestScan (cf : ℕ) (ts : List ℕ) :
    NearestScanOrder cf (sortTargets .stopped cf ts) := by
  unfold NearestScanOrder
  refine List.Pairwise.imp ?_ (sortTargets_sorted .stopped cf ts)
  intro a b h
  exact sortLe_stopped_imp h

theorem addStopSmart_of_mem {dir : Direction} {cf : ℕ} {ts : List ℕ} {f : ℕ}
    (h : f ∈ ts) : addStopSmart dir cf ts f = ts := by
  simp [addStopSmart, h]

theorem mem_addStopSmart_self (dir : Direction) (cf : ℕ) (ts : List ℕ) (f : ℕ) :
    f ∈ addStopSmart dir cf ts f := by
  unfold addStopSmart
  split
  · assumption
  · exact ((sortTargets_perm dir cf (ts ++ [f])).mem_iff).mpr (by simp)

theorem addStopSmart_nodup {dir : Direction} {cf : ℕ} {ts : List ℕ} {f : ℕ}
    (h : ts.Nodup) : (addStopSmart dir cf ts f).Nodup := by
  unfold addStopSmart
  split
  · exact h
  · refine ((sortTargets_perm dir cf (ts ++ [f])).symm).nodup ?_
    rw [List.nodup_append]
    exact ⟨h, List.nodup_singleton f, by simpa using fun hmem => by simp_all⟩

theorem selMin_snd_none {α : Type} {f : α → Option ℚ} {l : List α}
    (h : (selMin f l).1 = none) : (selMin f l).2 = none := by
  rcases selMin_spec f l with ⟨_, h2, _⟩ | ⟨b, l1, l2, h1, _⟩
  · exact h2
  · rw [h] at h1; cases h1

theorem assignPassenger_pending (s : ControllerState) (e : Elevator) (p : Passenger)
    (fl : ℕ) : (assignPassenger s e p fl).1.pending_calls = s.pending_calls := by
  unfold assignPassenger setTargets
  dsimp only
  simp only [eq_self_iff_true, if_true]
  split <;> rfl

theorem assignPassenger_targets (s : ControllerState) (e : Elevator) (p : Passenger)
    (fl i : ℕ) :
    (assignPassenger s e p fl).1.elevator_targets i =
      if i = e.id then
        addStopSmart e.last_tick_direction e.current_floor
          (addStopSmart e.last_tick_direction e.current_floor
            (s.elevator_targets e.id) fl) p.destination
      else s.elevator_targets i := by
  unfold assignPassenger setTargets
  dsimp only
  simp only [eq_self_iff_true, if_true]
  split <;> rfl

theorem assignPassenger_inv {s : ControllerState} (e : Elevator) (p : Passenger)
    (fl : ℕ) (h : StateInv s) : StateInv (assignPassenger s e p fl).1 := by
  refine ⟨?_, ?_⟩
  · rw [assignPassenger_pending]; exact h.1
  · intro i
    rw [assignPassenger_targets]
    split
    · exact addStopSmart_nodup (addStopSmart_nodup (h.2 e.id))
    · exact h.2 i

theorem tryAssignPending_inv {s : ControllerState} (e : Elevator) (h : StateInv s) :
    StateInv (tryAssignPending s e).2.1 := by
  unfold tryAssignPending
  split
  · exact h
  · rcases hsel : (selMin (fun p => some (pendingScore s.passenger_waiting_time e p))
        s.pending_calls).1 with _ | p
    · exact h
    · exact assignPassenger_inv e p p.origin ⟨h.1.erase p, h.2⟩

theorem onPassengerCall_assign {obs : List Elevator} {fl : ℕ} {dir : Direction}
    {e : Elevator} (h : (selMin (fun x => calcScore x fl dir) obs).1 = some e)
    (s : ControllerState) (p : Passenger) :
    onPassengerCall s obs p fl dir = assignPassenger s e p fl := by
  have h2 := (selMin_some_spec h).1
  have h3 := (selMin_some_spec h).2.1
  rcases hq : calcScore e fl dir with _ | q
  · exact absurd hq h3
  · have hpair : selMin (fun x => calcScore x fl dir) obs = (some e, some q) := by
      rw [Prod.ext_iff]
      exact ⟨h, by rw [h2, hq]⟩
    unfold onPassengerCall
    rw [hpair]

theorem onPassengerCall_noassign {obs : List Elevator} {fl : ℕ} {dir : Direction}
    (h : (selMin (fun x => calcScore x fl dir) obs).1 = none)
    (s : ControllerState) (p : Passenger) :
    onPassengerCall s obs p fl dir =
      if p ∈ s.pending_calls then (s, [])
      else
        ({ s with
            pending_calls := s.pending_calls ++ [p]
            passenger_waiting_time := fun i =>
              if i = p.id then 0 else s.passenger_waiting_time i }, []) := by
  have hpair : selMin (fun x => calcScore x fl dir) obs = (none, none) := by
    rw [Prod.ext_iff]
    exact ⟨h, selMin_snd_none h⟩
  unfold onPassengerCall
  rw [hpair]

theorem onPassengerCall_inv {s : ControllerState} (obs : List Elevator) (p : Passenger)
    (fl : ℕ) (dir : Direction) (h : StateInv s) :
    StateInv (onPassengerCall s obs p fl dir).1 := by
  rcases hsel : (selMin (fun x => calcScore x fl dir) obs).1 with _ | e
  · rw [onPassengerCall_noassign hsel]
    split
    · exact h
    · refine ⟨?_, h.2⟩
      rw [List.nodup_append]
      refine ⟨h.1, List.nodup_singleton p, ?_⟩
      intro a ha hb
      simp only [List.mem_singleton] at hb
      subst hb
      simp_all
  · rw [onPassengerCall_assign hsel]
    exact assignPassenger_inv e p fl h

theorem onElevatorIdle_inv {s : ControllerState} (e : Elevator) (h : StateInv s) :
    StateInv (onElevatorIdle s e).1 := by
  unfold onElevatorIdle
  rcases ht : tryAssignPending s e with ⟨b, s', cs⟩
  have hs' : StateInv s' := by
    have := tryAssignPending_inv e h
    rw [ht] at this
    exact this
  cases b
  · simp only []
    split <;> exact hs'
  · exact hs'

theorem onElevatorStopped_inv {s : ControllerState} (e : Elevator) (fl : ℕ)
    (h : StateInv s) : StateInv (onElevatorStopped s e fl).1 := by
  refine ⟨h.1, ?_⟩
  intro i
  show (if i = e.id then _ else s.elevator_targets i).Nodup
  split
  · split
    · exact (h.2 e.id).erase fl
    · exact h.2 e.id
  · exact h.2 i

theorem onPassengerBoard_inv {s : ControllerState} (e : Elevator) (p : Passenger)
    (h : StateInv s) : StateInv (onPassengerBoard s e p).1 := by
  unfold onPassengerBoard setTargets
  split <;>
    exact ⟨h.1, fun i => by
      show (if i = e.id then _ else s.elevator_targets i).Nodup
      split
      · exact addStopSmart_nodup (h.2 e.id)
      · exact h.2 i⟩

theorem onElevatorApproaching_inv {s : ControllerState} (e : Elevator) (fl : ℕ)
    (dir : Direction) (h : StateInv s) : StateInv (onElevatorApproaching s e fl dir).1 := by
  unfold onElevatorApproaching
  split
  · exact h
  split
  · exact h
  rcases hf : s.pending_calls.find? (interceptMatch fl dir) with _ | p
  · exact h
  · dsimp only [setTargets]
    split
    all_goals refine ⟨h.1.erase p, fun i => ?_⟩
    all_goals dsimp only
    all_goals split_ifs
    all_goals
      first
        | exact h.2 i
        | exact addStopSmart_nodup (h.2 e.id)
        | exact addStopSmart_nodup (addStopSmart_nodup (h.2 e.id))

theorem onTickStart_inv {s : ControllerState} (valid : Passenger → Bool)
    (h : StateInv s) : StateInv (onTickStart s valid) :=
  ⟨h.1.filter valid, h.2⟩

theorem processPendingCalls_inv {s : ControllerState} (obs : List Elevator)
    (h : StateInv s) : StateInv (processPendingCalls s obs).1 := by
  unfold processPendingCalls
  suffices H : ∀ (l : List Elevator) (acc : ControllerState × List Cmd),
      StateInv acc.1 → StateInv (List.foldl
        (fun acc e =>
          if acc.1.pending_calls = [] then acc
          else if (acc.1.elevator_targets e.id).length ≤ 2 then
            let r := tryAssignPending acc.1 e
            if r.1 = true then
              if e.target_floor = none ∨ e.target_floor = some e.current_floor then
                (r.2.1, acc.2 ++ r.2.2 ++ sendNextCmds r.2.1 e)
              else (r.2.1, acc.2 ++ r.2.2)
            else (r.2.1, acc.2 ++ r.2.2)
          else acc) acc l).1 by
    exact H obs (s, []) h
  intro l
  induction l with
  | nil => intro acc hacc; exact hacc
  | cons e rest ih =>
    intro acc hacc
    rw [List.foldl_cons]
    apply ih
    have hs' : StateInv (tryAssignPending acc.1 e).2.1 := tryAssignPending_inv e hacc
    dsimp only
    split
    · exact hacc
    split
    · split
      · split <;> exact hs'
      · exact hs'
    · exact hacc

/-- All reachable states satisfy the duplicate-freeness invariant. -/
theorem reachable_inv {s : ControllerState} (h : Reachable s) : StateInv s := by
  induction h with
  | init maxFloor numElevators =>
    exact ⟨List.nodup_nil, fun _ => List.nodup_nil⟩
  | tick_start valid _ ih => exact onTickStart_inv valid ih
  | tick_end obs _ ih => exact processPendingCalls_inv obs ih
  | passenger_call obs p fl dir _ ih => exact onPassengerCall_inv obs p fl dir ih
  | elevator_idle e _ ih => exact onElevatorIdle_inv e ih
  | elevator_stopped e fl _ ih => exact onElevatorStopped_inv e fl ih
  | passenger_board e p _ ih => exact onPassengerBoard_inv e p ih
  | elevator_approaching e fl dir _ ih => exact onElevatorApproaching_inv e fl dir ih

theorem calcScore_eq_specScore (e : Elevator) (fl : ℕ) (dir : Direction)
    (hdir : dir ≠ .stopped) : calcScore e fl dir = specScore e fl dir := by
  rcases e with ⟨eid, cf, occ, cap, edir, tgt⟩
  unfold calcScore specScore
  dsimp only
  cases edir <;> cases dir <;> first
    | exact absurd rfl hdir
    | (split_ifs <;>
        first
          | rfl
          | omega
          | (simp_all <;> omega))

/-! ### Reduction lemmas for the handlers -/

theorem calcScore_ne_none_lt {e : Elevator} {fl : ℕ} {dir : Direction}
    (h : calcScore e fl dir ≠ none) : e.occupants < e.max_capacity := by
  by_contra hc
  push_neg at hc
  exact h (by unfold calcScore; rw [if_pos hc])

theorem approaching_emptyPending {s : ControllerState} {e : Elevator} {fl : ℕ}
    {dir : Direction} (h : s.pending_calls = []) :
    onElevatorApproaching s e fl dir = (s, []) := by
  unfold onElevatorApproaching
  rw [if_pos h]

theorem approaching_full {s : ControllerState} {e : Elevator} {fl : ℕ}
    {dir : Direction} (h : e.max_capacity ≤ e.occupants) :
    onElevatorApproaching s e fl dir = (s, []) := by
  unfold onElevatorApproaching
  by_cases h0 : s.pending_calls = []
  · rw [if_pos h0]
  · rw [if_neg h0, if_pos h]

theorem approaching_noMatch {s : ControllerState} {e : Elevator} {fl : ℕ}
    {dir : Direction} (h0 : ¬s.pending_calls = []) (h1 : ¬e.max_capacity ≤ e.occupants)
    (hf : s.pending_calls.find? (interceptMatch fl dir) = none) :
    onElevatorApproaching s e fl dir = (s, []) := by
  unfold onElevatorApproaching
  rw [if_neg h0, if_neg h1, hf]

theorem approaching_found_pending {s : ControllerState} {e : Elevator} {fl : ℕ}
    {dir : Direction} {p : Passenger} (h0 : ¬s.pending_calls = [])
    (h1 : ¬e.max_capacity ≤ e.occupants)
    (hf : s.pending_calls.find? (interceptMatch fl dir) = some p) :
    (onElevatorApproaching s e fl dir).1.pending_calls = s.pending_calls.erase p := by
  unfold onElevatorApproaching
  rw [if_neg h0, if_neg h1, hf]
  dsimp only [setTargets]
  split <;> rfl

theorem tryAssign_emptyPending {s : ControllerState} {e : Elevator}
    (h : s.pending_calls = []) : tryAssignPending s e = (false, s, []) := by
  unfold tryAssignPending
  rw [if_pos h]

theorem tryAssign_found {s : ControllerState} {e : Elevator} {p : Passenger}
    (hsel : (selMin (fun p => some (pendingScore s.passenger_waiting_time e p))
      s.pending_calls).1 = some p) :
    (tryAssignPending s e).1 = true
    ∧ (tryAssignPending s e).2.1.pending_calls = s.pending_calls.erase p := by
  have h0 : ¬s.pending_calls = [] := by
    intro h
    rw [h] at hsel
    cases hsel
  unfold tryAssignPending
  rw [if_neg h0, hsel]
  dsimp only
  exact ⟨rfl, by rw [assignPassenger_pending]⟩

theorem onElevatorIdle_noPending {s : ControllerState} {e : Elevator}
    (h : s.pending_calls = []) :
    onElevatorIdle s e =
      if strategicPosition s e ≠ e.current_floor
      then (s, [Cmd.goTo e.id (strategicPosition s e) false]) else (s, []) := by
  unfold onElevatorIdle
  rw [tryAssign_emptyPending h]

/-! ### Claim theorems -/

/-- C1 (counterexample): the Backlog match path performs no capacity check.
With a vehicle at capacity (4 of 4) and a pending passenger, the match
succeeds: it reports `True`, removes the passenger from the backlog, and
queues both the pickup and the destination floor on the full vehicle. -/
theorem claim1_counterexample :
    fullElevator.max_capacity ≤ fullElevator.occupants
    ∧ (tryAssignPending backlogState fullElevator).1 = true
    ∧ (tryAssignPending backlogState fullElevator).2.1.pending_calls = []
    ∧ (tryAssignPending backlogState fullElevator).2.1.elevator_targets 0 = [2, 3] := by
  refine ⟨by decide, ?_, ?_, ?_⟩ <;>
    · norm_num [tryAssignPending, selMin, selStep, oLt, pendingScore, assignPassenger,
        addStopSmart, sortTargets, sortLe, keyLe, sortKey, setTargets, sendNextCmds,
        backlogState, backlogPassenger, fullElevator, List.erase]
      try simp

/-- C1 (amended): the capacity gate holds on the two paths that have one.
An assignment chosen by the call-time scorer always targets a vehicle with
spare capacity (a full vehicle scores infinite), and the opportunistic
interceptor does nothing at all for a full vehicle; the Backlog match path
checks no capacity. -/
theorem claim1_amended :
    (∀ (obs : List Elevator) (fl : ℕ) (dir : Direction) (e : Elevator),
        (selMin (fun x => calcScore x fl dir) obs).1 = some e →
        e.occupants < e.max_capacity)
    ∧ (∀ (s : ControllerState) (e : Elevator) (fl : ℕ) (dir : Direction),
        e.max_capacity ≤ e.occupants → onElevatorApproaching s e fl dir = (s, [])) := by
  constructor
  · intro obs fl dir e h
    exact calcScore_ne_none_lt (selMin_some_spec h).2.1
  · intro s e fl dir h
    exact approaching_full h

/-- Witness for `claim1_amended` at concrete inputs. -/
theorem claim1_amended_witness :
    scenAElevator.occupants < scenAElevator.max_capacity
    ∧ onElevatorApproaching backlogState fullElevator 2 .up = (backlogState, []) :=
  ⟨claim1_amended.1 [scenAElevator] 0 .up scenAElevator
      (by norm_num [selMin, selStep, oLt, calcScore, scenAElevator]),
    claim1_amended.2 backlogState fullElevator 2 .up (by decide)⟩

/-- C2: the call-time scoring rule matches the specification's formula
case for case, the call is assigned to the first vehicle in iteration order
attaining the strict minimum finite score, and the passenger is appended to
the Backlog exactly when every vehicle's score is infinite. -/
theorem claim2_scoring : ∀ (s : ControllerState) (obs : List Elevator) (p : Passenger)
    (fl : ℕ) (dir : Direction), dir ≠ .stopped → p ∉ s.pending_calls →
    (∀ e, calcScore e fl dir = specScore e fl dir)
    ∧ (∀ e, (selMin (fun x => calcScore x fl dir) obs).1 = some e →
        FirstMinScorer obs fl dir e
        ∧ onPassengerCall s obs p fl dir = assignPassenger s e p fl)
    ∧ ((onPassengerCall s obs p fl dir).1.pending_calls = s.pending_calls ++ [p]
        ↔ ∀ e ∈ obs, calcScore e fl dir = none) := by
  intro s obs p fl dir hdir hp
  refine ⟨fun e => calcScore_eq_specScore e fl dir hdir, ?_, ?_⟩
  · intro e hsel
    have hs := selMin_some_spec hsel
    exact ⟨⟨hs.2.1, hs.2.2.1, hs.2.2.2⟩, onPassengerCall_assign hsel s p⟩
  · rcases hsel : (selMin (fun x => calcScore x fl dir) obs).1 with _ | e
    · rw [onPassengerCall_noassign hsel, if_neg hp]
      constructor
      · intro _
        exact (selMin_fst_none_iff _ _).mp hsel
      · intro _
        rfl
    · rw [onPassengerCall_assign hsel s p, assignPassenger_pending]
      constructor
      · intro hEq
        exfalso
        have := congrArg List.length hEq
        simp at this
      · intro hAll
        exfalso
        exact (selMin_some_spec hsel).2.1 (hAll e (selMin_mem hsel))

/-- Witness for `claim2_scoring` at Scenario A's inputs. -/
theorem claim2_scoring_witness :
    calcScore scenAElevator 0 .up = specScore scenAElevator 0 .up
    ∧ ((onPassengerCall (initState 2 1) [scenAElevator] scenAPassenger 0 .up).1.pending_calls
        = (initState 2 1).pending_calls ++ [scenAPassenger]
        ↔ ∀ e ∈ [scenAElevator], calcScore e 0 .up = none) :=
  ⟨(claim2_scoring (initState 2 1) [scenAElevator] scenAPassenger 0 .up (by decide)
      (by simp [initState])).1 scenAElevator,
    (claim2_scoring (initState 2 1) [scenAElevator] scenAPassenger 0 .up (by decide)
      (by simp [initState])).2.2⟩

/-- C3 (counterexample): a vehicle stops with an empty Stop Queue (length ≤ 2)
while the Backlog is non-empty; the stop handler leaves the Backlog untouched
even though a Backlog match for this vehicle would have succeeded and removed
the pending call. -/
theorem claim3_counterexample :
    (backlogState.elevator_targets idleElevator.id).length ≤ 2
    ∧ backlogState.pending_calls ≠ []
    ∧ (onElevatorStopped backlogState idleElevator 4).1.pending_calls
        = backlogState.pending_calls
    ∧ (tryAssignPending backlogState idleElevator).2.1.pending_calls = [] := by
  refine ⟨by decide, by decide, rfl, ?_⟩
  norm_num [tryAssignPending, selMin, selStep, oLt, pendingScore, assignPassenger,
    addStopSmart, sortTargets, sortLe, keyLe, sortKey, setTargets, sendNextCmds,
    backlogState, backlogPassenger, idleElevator, List.erase]
  try simp

/-- C3 (amended): the vehicle-stopped handler only consumes the stopped floor
from that vehicle's queue and issues the next queue head; it never touches the
Backlog.  Backlog matching happens only at tick end (for vehicles with queue
length ≤ 2) and on vehicle-idle. -/
theorem claim3_amended : ∀ (s : ControllerState) (e : Elevator) (fl : ℕ),
    (onElevatorStopped s e fl).1.pending_calls = s.pending_calls
    ∧ (onElevatorStopped s e fl).1.passenger_waiting_time = s.passenger_waiting_time
    ∧ (onElevatorStopped s e fl).1.elevator_targets e.id = (s.elevator_targets e.id).erase fl
    ∧ (∀ i, i ≠ e.id → (onElevatorStopped s e fl).1.elevator_targets i = s.elevator_targets i)
    ∧ (onElevatorStopped s e fl).2 =
        (match (s.elevator_targets e.id).erase fl with
          | [] => []
          | f2 :: _ => [Cmd.goTo e.id f2 false]) := by
  intro s e fl
  have hts : (if fl ∈ s.elevator_targets e.id then (s.elevator_targets e.id).erase fl
      else s.elevator_targets e.id) = (s.elevator_targets e.id).erase fl := by
    split
    · rfl
    · exact (List.erase_of_not_mem (by assumption)).symm
  unfold onElevatorStopped setTargets sendNextCmds
  dsimp only
  refine ⟨rfl, rfl, ?_, ?_, ?_⟩
  · simp [hts]
  · intro i hi
    simp [hi]
  · simp only [eq_self_iff_true, if_true, hts]

/-- Witness for `claim3_amended` at a concrete stop event. -/
theorem claim3_amended_witness :
    (onElevatorStopped backlogState idleElevator 4).1.pending_calls
        = backlogState.pending_calls
    ∧ (onElevatorStopped backlogState idleElevator 4).1.elevator_targets idleElevator.id
        = (backlogState.elevator_targets idleElevator.id).erase 4
    ∧ (onElevatorStopped backlogState idleElevator 4).1.elevator_targets 3
        = backlogState.elevator_targets 3 :=
  ⟨(claim3_amended backlogState idleElevator 4).1,
    (claim3_amended backlogState idleElevator 4).2.2.1,
    (claim3_amended backlogState idleElevator 4).2.2.2.1 3 (by decide)⟩

/-- C4 (counterexample): inserting an already-queued floor early-returns
without resorting, so the queue is not re-established in the current
direction's SCAN order: with the vehicle at floor 0 moving UP and queue
`[5, 1]`, inserting the already-present floor 5 leaves `[5, 1]`, which is not
in UP SCAN order (both floors are ≥ 0 but not ascending). -/
theorem claim4_counterexample :
    addStopSmart .up 0 [5, 1] 5 = [5, 1] ∧ ¬UpScanOrder 0 [5, 1] := by
  constructor
  · decide
  · decide

/-- C4 (amended): after every insert of a floor not already queued, the whole
queue is in direction-aware SCAN order — UP: floors ≥ current first ascending
then floors < current descending; DOWN: floors ≤ current first descending then
floors > current ascending; STOPPED: by absolute distance, nearest first.
(An insert of an already-queued floor leaves the queue unchanged.) -/
theorem claim4_amended : ∀ (cf : ℕ) (ts : List ℕ) (f : ℕ), f ∉ ts →
    UpScanOrder cf (addStopSmart .up cf ts f)
    ∧ DownScanOrder cf (addStopSmart .down cf ts f)
    ∧ NearestScanOrder cf (addStopSmart .stopped cf ts f) := by
  intro cf ts f hf
  have h : ∀ dir, addStopSmart dir cf ts f = sortTargets dir cf (ts ++ [f]) := by
    intro dir
    unfold addStopSmart
    rw [if_neg hf]
  rw [h .up, h .down, h .stopped]
  exact ⟨sortTargets_upScan cf _, sortTargets_downScan cf _, sortTargets_nearestScan cf _⟩

/-- Witness for `claim4_amended` at a concrete insert. -/
theorem claim4_amended_witness :
    UpScanOrder 0 (addStopSmart .up 0 [] 2)
    ∧ NearestScanOrder 3 (addStopSmart .stopped 3 [1, 5] 4) :=
  ⟨(claim4_amended 0 [] 2 (by decide)).1, (claim4_amended 3 [1, 5] 4 (by decide)).2.2⟩

/-- C5 (counterexample): the Idle Repositioner truncates, it does not round.
Vehicle 1 of 3 with top floor 7 sits idle at floor 4: the claim's strategic
floor `round(1 × 7 / 2) = round(3.5) = 4` equals the current floor, so the
claim predicts no move; the code computes `int(1 * 7 / 2) = 3` and issues a
move to floor 3.  (Python's banker's rounding also yields 4 at 3.5.) -/
theorem claim5_counterexample :
    repoElevator.current_floor = 4
    ∧ round (((repoElevator.id * repoState.max_floor : ℕ) : ℚ)
        / ((repoState.num_elevators - 1 : ℕ) : ℚ)) = (4 : ℤ)
    ∧ strategicPosition repoState repoElevator = 3
    ∧ (onElevatorIdle repoState repoElevator).2 = [Cmd.goTo 1 3 false] := by
  refine ⟨rfl, ?_, by decide, ?_⟩
  · norm_num [repoElevator, repoState, round_eq]
  · rw [onElevatorIdle_noPending rfl]
    norm_num [strategicPosition, repoState, repoElevator]

/-- C5 (amended): when a vehicle reports idle with an empty Stop Queue and an
empty Backlog, the strategic floor is `max_floor // 2` for a single-vehicle
fleet and the truncating division `(id × max_floor) / (N − 1)` (not the
rounding the claim states) for `N > 1`, the vehicle's id serving as its
ordinal position; a move command is issued precisely when that floor differs
from the current floor, and the controller state is unchanged. -/
theorem claim5_amended : ∀ (s : ControllerState) (e : Elevator),
    s.pending_calls = [] → s.elevator_targets e.id = [] →
    strategicPosition s e = (if s.num_elevators = 1 then s.max_floor / 2
      else e.id * s.max_floor / (s.num_elevators - 1))
    ∧ (onElevatorIdle s e).1 = s
    ∧ (onElevatorIdle s e).2 =
        (if strategicPosition s e ≠ e.current_floor
         then [Cmd.goTo e.id (strategicPosition s e) false] else []) := by
  intro s e hp _
  refine ⟨rfl, ?_, ?_⟩
  · rw [onElevatorIdle_noPending hp]
    split <;> rfl
  · rw [onElevatorIdle_noPending hp]
    split <;> simp [*]

/-- Witness for `claim5_amended` at the concrete idle fixture. -/
theorem claim5_amended_witness :
    strategicPosition repoState repoElevator =
      (if repoState.num_elevators = 1 then repoState.max_floor / 2
       else repoElevator.id * repoState.max_floor / (repoState.num_elevators - 1))
    ∧ (onElevatorIdle repoState repoElevator).1 = repoState
    ∧ (onElevatorIdle repoState repoElevator).2 =
        (if strategicPosition repoState repoElevator ≠ repoElevator.current_floor
         then [Cmd.goTo repoElevator.id (strategicPosition repoState repoElevator) false]
         else []) :=
  claim5_amended repoState repoElevator rfl rfl

/-- C6 (counterexample): in Scenario A the pickup floor 0 IS queued even
though the vehicle is already there — `_add_stop_smart` has no
"already at this floor" check — so the Stop Queue becomes `[0, 2]`, not `[2]`,
and no command to floor 2 is issued (the idle vehicle's target is null, and
`None == current_floor` is false, so no command at all is sent). -/
theorem claim6_counterexample :
    (onPassengerCall (initState 2 1) [scenAElevator] scenAPassenger 0 .up).1.elevator_targets 0
      = [0, 2]
    ∧ [0, 2] ≠ [2]
    ∧ (onPassengerCall (initState 2 1) [scenAElevator] scenAPassenger 0 .up).2 = [] := by
  refine ⟨?_, by decide, ?_⟩ <;>
    · norm_num [onPassengerCall, selMin, selStep, oLt, calcScore, assignPassenger, addStopSmart,
        sortTargets, sortLe, keyLe, sortKey, setTargets, sendNextCmds, initState,
        scenAElevator, scenAPassenger]
      try simp

/-- C6 (amended): in Scenario A the call is assigned immediately (the Backlog
stays empty) and the Stop Queue becomes `[0, 2]`; a command — to floor 0, the
queue head, not floor 2 — is issued exactly when the vehicle's reported target
floor equals its current floor 0. -/
theorem claim6_amended : ∀ tf : Option ℕ,
    (onPassengerCall (initState 2 1) [scenAElevatorT tf] scenAPassenger 0 .up).1.elevator_targets 0
      = [0, 2]
    ∧ (onPassengerCall (initState 2 1) [scenAElevatorT tf] scenAPassenger 0 .up).1.pending_calls
      = []
    ∧ (onPassengerCall (initState 2 1) [scenAElevatorT tf] scenAPassenger 0 .up).2 =
        (if tf = some 0 then [Cmd.goTo 0 0 false] else []) := by
  intro tf
  rcases tf with _ | x
  · refine ⟨?_, ?_, ?_⟩ <;>
      · norm_num [onPassengerCall, selMin, selStep, oLt, calcScore, assignPassenger,
          addStopSmart, sortTargets, sortLe, keyLe, sortKey, setTargets, sendNextCmds,
          initState, scenAElevatorT, scenAElevator, scenAPassenger]
        try simp
  · by_cases hx : x = 0
    · subst hx
      refine ⟨?_, ?_, ?_⟩ <;>
        · norm_num [onPassengerCall, selMin, selStep, oLt, calcScore, assignPassenger,
            addStopSmart, sortTargets, sortLe, keyLe, sortKey, setTargets, sendNextCmds,
            initState, scenAElevatorT, scenAElevator, scenAPassenger]
          try simp
    · refine ⟨?_, ?_, ?_⟩ <;>
        · norm_num [onPassengerCall, selMin, selStep, oLt, calcScore, assignPassenger,
            addStopSmart, sortTargets, sortLe, keyLe, sortKey, setTargets, sendNextCmds,
            initState, scenAElevatorT, scenAElevator, scenAPassenger, hx]
          try simp

/-- Witness for `claim6_amended` at a null reported target. -/
theorem claim6_amended_witness :
    (onPassengerCall (initState 2 1) [scenAElevatorT none] scenAPassenger 0 .up).1.elevator_targets 0
      = [0, 2]
    ∧ (onPassengerCall (initState 2 1) [scenAElevatorT none] scenAPassenger 0 .up).2 =
        (if (none : Option ℕ) = some 0 then [Cmd.goTo 0 0 false] else []) :=
  ⟨(claim6_amended none).1, (claim6_amended none).2.2⟩

/-- C7: Stop Queue insertion is idempotent and duplicate-free — inserting an
already-present floor leaves the queue unchanged, two consecutive inserts of
the same floor (under any intervening position/direction observations, with
no consumption between) equal one insert, and in every reachable controller
state every vehicle's Stop Queue is duplicate-free. -/
theorem claim7_queue_idempotent_nodup :
    (∀ (dir : Direction) (cf : ℕ) (ts : List ℕ) (f : ℕ), f ∈ ts →
        addStopSmart dir cf ts f = ts)
    ∧ (∀ (dir1 : Direction) (cf1 : ℕ) (dir2 : Direction) (cf2 : ℕ) (ts : List ℕ) (f : ℕ),
        addStopSmart dir2 cf2 (addStopSmart dir1 cf1 ts f) f = addStopSmart dir1 cf1 ts f)
    ∧ (∀ s : ControllerState, Reachable s → ∀ i, (s.elevator_targets i).Nodup) := by
  refine ⟨fun dir cf ts f h => addStopSmart_of_mem h, ?_, ?_⟩
  · intro dir1 cf1 dir2 cf2 ts f
    exact addStopSmart_of_mem (mem_addStopSmart_self dir1 cf1 ts f)
  · intro s h i
    exact (reachable_inv h).2 i

/-- Witness for `claim7_queue_idempotent_nodup` at concrete inputs. -/
theorem claim7_witness :
    addStopSmart .up 0 [3] 3 = [3]
    ∧ ∀ i, ((initState 5 2).elevator_targets i).Nodup :=
  ⟨claim7_queue_idempotent_nodup.1 .up 0 [3] 3 (by decide),
    claim7_queue_idempotent_nodup.2.2 _ (Reachable.init 5 2)⟩

/-- C8: a Backlog match for a vehicle selects a pending call minimizing
`priority_score = distance − waiting_ticks × 0.5` (the first such in backlog
order), removes precisely that call from the Backlog (the assignment path
never re-adds it), and reports success; Scenario D: the call waiting 10 ticks
at distance 3 (score −2) beats the call waiting 0 ticks at distance 1
(score 1). -/
theorem claim8_backlog_priority :
    (∀ (s : ControllerState) (e : Elevator), s.pending_calls ≠ [] →
        (selMin (fun p => some (pendingScore s.passenger_waiting_time e p))
          s.pending_calls).1 ≠ none)
    ∧ (∀ (s : ControllerState) (e : Elevator) (p : Passenger),
        (selMin (fun p => some (pendingScore s.passenger_waiting_time e p))
          s.pending_calls).1 = some p →
          p ∈ s.pending_calls
          ∧ (∀ q ∈ s.pending_calls,
              pendingScore s.passenger_waiting_time e p
                ≤ pendingScore s.passenger_waiting_time e q)
          ∧ (tryAssignPending s e).1 = true
          ∧ (tryAssignPending s e).2.1.pending_calls = s.pending_calls.erase p)
    ∧ (pendingScore scenDState.passenger_waiting_time idleElevator scenDP1 = -2
        ∧ pendingScore scenDState.passenger_waiting_time idleElevator scenDP2 = 1
        ∧ (selMin (fun p => some (pendingScore scenDState.passenger_waiting_time idleElevator p))
            scenDState.pending_calls).1 = some scenDP1
        ∧ (tryAssignPending scenDState idleElevator).2.1.pending_calls = [scenDP2]) := by
  refine ⟨?_, ?_, ?_, ?_, ?_, ?_⟩
  · intro s e hne h
    have hall := (selMin_fst_none_iff _ _).mp h
    obtain ⟨x, hx⟩ := List.exists_mem_of_ne_nil _ hne
    exact Option.some_ne_none _ (hall x hx)
  · intro s e p hsel
    have hs := selMin_some_spec hsel
    refine ⟨selMin_mem hsel, ?_, (tryAssign_found hsel).1, (tryAssign_found hsel).2⟩
    intro q hq
    have hlt := hs.2.2.1 q hq
    simp only [oLt, decide_eq_false_iff_not] at hlt
    exact le_of_not_lt hlt
  · norm_num [pendingScore, scenDState, scenDP1, idleElevator]
  · norm_num [pendingScore, scenDState, scenDP2, idleElevator]
  · norm_num [selMin, selStep, oLt, pendingScore, scenDState, scenDP1, scenDP2, idleElevator]
  · norm_num [tryAssignPending, selMin, selStep, oLt, pendingScore, assignPassenger,
      addStopSmart, sortTargets, sortLe, keyLe, sortKey, setTargets, sendNextCmds,
      scenDState, scenDP1, scenDP2, idleElevator, List.erase]
    try simp

/-- Witness for `claim8_backlog_priority` at the Scenario D fixture. -/
theorem claim8_witness :
    (selMin (fun p => some (pendingScore scenDState.passenger_waiting_time idleElevator p))
        scenDState.pending_calls).1 ≠ none
    ∧ scenDP1 ∈ scenDState.pending_calls
    ∧ (tryAssignPending scenDState idleElevator).2.1.pending_calls
        = scenDState.pending_calls.erase scenDP1 :=
  ⟨claim8_backlog_priority.1 scenDState idleElevator (by decide),
    (claim8_backlog_priority.2.1 scenDState idleElevator scenDP1
      (by norm_num [selMin, selStep, oLt, pendingScore, scenDState, scenDP1, scenDP2,
        idleElevator])).1,
    (claim8_backlog_priority.2.1 scenDState idleElevator scenDP1
      (by norm_num [selMin, selStep, oLt, pendingScore, scenDState, scenDP1, scenDP2,
        idleElevator])).2.2.2⟩

/-- C9: one invocation of the approach handler removes at most one pending
call — the first whose origin is the approached floor and whose travel
direction matches — and a vehicle at or above capacity causes no state change
and no command. -/
theorem claim9_intercept : ∀ (s : ControllerState) (e : Elevator) (fl : ℕ) (dir : Direction),
    (e.max_capacity ≤ e.occupants → onElevatorApproaching s e fl dir = (s, []))
    ∧ s.pending_calls.length ≤ (onElevatorApproaching s e fl dir).1.pending_calls.length + 1
    ∧ ((onElevatorApproaching s e fl dir).1.pending_calls = s.pending_calls
        ∨ ∃ p, s.pending_calls.find? (interceptMatch fl dir) = some p
            ∧ (onElevatorApproaching s e fl dir).1.pending_calls
                = s.pending_calls.erase p) := by
  intro s e fl dir
  have hcases : (onElevatorApproaching s e fl dir).1.pending_calls = s.pending_calls
      ∨ ∃ p, s.pending_calls.find? (interceptMatch fl dir) = some p
          ∧ (onElevatorApproaching s e fl dir).1.pending_calls
              = s.pending_calls.erase p := by
    by_cases h0 : s.pending_calls = []
    · left
      rw [approaching_emptyPending h0]
    · by_cases h1 : e.max_capacity ≤ e.occupants
      · left
        rw [approaching_full h1]
      · rcases hf : s.pending_calls.find? (interceptMatch fl dir) with _ | p
        · left
          rw [approaching_noMatch h0 h1 hf]
        · right
          exact ⟨p, rfl, approaching_found_pending h0 h1 hf⟩
  refine ⟨fun h => approaching_full h, ?_, hcases⟩
  rcases hcases with h | ⟨p, hf, h⟩
  · rw [h]
    omega
  · rw [h]
    have hm : p ∈ s.pending_calls := List.mem_of_find?_eq_some hf
    have := List.length_erase_of_mem hm
    omega

/-- Witness for `claim9_intercept`: a full vehicle's approach is a no-op. -/
theorem claim9_witness :
    onElevatorApproaching backlogState fullElevator 5 .down = (backlogState, []) :=
  (claim9_intercept backlogState fullElevator 5 .down).1 (by decide)

/-- C10: in every reachable controller state the Backlog holds at most one
entry per passenger — `on_passenger_call` appends only if absent, and every
match or interception removes the entry. -/
theorem claim10_backlog_unique : ∀ s : ControllerState, Reachable s →
    ∀ p : Passenger, s.pending_calls.count p ≤ 1 := by
  intro s h p
  exact List.nodup_iff_count_le_one.mp (reachable_inv h).1 p

/-- Witness for `claim10_backlog_unique` at a concrete reachable state
(one call handled with no elevators observed, so the call went to the
Backlog). -/
theorem claim10_witness :
    (onPassengerCall (initState 2 1) [] scenAPassenger 0 .up).1.pending_calls.count
      scenAPassenger ≤ 1 :=
  claim10_backlog_unique _
    (Reachable.passenger_call [] scenAPassenger 0 .up (Reachable.init 2 1)) scenAPassenger

end ElevatorSaga
